import Mathlib

/-!
Verification development for the `ethereum_test_filling_tool` fixture filler
(`src/ethereum_test_filling_tool/main.py`).

Modelling conventions, used throughout:

* Filesystem paths are modelled as lists of path segments (`List String`).
  The Python code builds paths with `os.path.join` and converts between
  dotted and slash-separated package names with `str.replace`; at the
  segment level both representations are the same list of segments, so
  `replace(".", "/")` and `replace("/", ".")` are identities of the model.
  Segment names are taken not to contain the path separator.
* Modification times (`os.path.getmtime` returns a real number) are
  modelled as `Int`: only their linear order and the constant `0` are ever
  used by the code.
* The package/module hierarchy scanned by `setuptools.find_packages` and
  `pkgutil.iter_modules` is modelled as a tree `Dir`.  Both of those
  functions are external library collaborators of the repository and are
  modelled from their documented behaviour: `find_packages` walks the tree
  top-down, treats a directory as a package when it and all its ancestors
  below the root contain `__init__.py`, and yields a parent package before
  any of its sub-packages; `iter_modules` lists the modules and package
  sub-directories of one directory, skipping `__init__` and directories
  without `__init__.py`.  The real `iter_modules` sorts sibling names; the
  model keeps the order of the tree lists, which leaves the sibling order
  abstract.  Wildcard `fnmatch` patterns other than the default `("*",)`
  are not modelled: category filters are matched as literal dotted names,
  which is what `fnmatch` does for patterns without wildcard characters.
* A fixture result is modelled as the JSON value it serializes to; the
  custom `JSONEncoder` conversion of rich objects to JSON is out of scope.
* `concurrent.futures` execution is modelled by giving every submitted
  unit its outcome (`Except String JVal`) up front: every dispatched task
  runs to completion independently, and `future.result()` either returns
  the value or re-raises the recorded error.
-/

/-- Python `'.' in s`. -/
def hasDot (s : String) : Bool :=
  s.data.contains '.'

/-- Python substring test `needle in hay` for strings. -/
def substrOf (needle hay : String) : Bool :=
  decide (needle.data <:+: hay.data)

/-- Python pattern `not opt or opt in name` for an optional string option
`opt` (argparse default `None`): passes when the option is unset (`none`),
empty, or a substring of `name`.  This guard appears twice in the source:
for `include_modules` in `find_modules` and for `--test-case` in
`Filler.fill`. -/
def optSubstrPass (opt : Option String) (name : String) : Bool :=
  match opt with
  | none => true
  | some s => (s == "") || substrOf s name

/-- JSON values, the serializable results a filler produces.  Object
members are an ordered association list: Python dicts preserve insertion
order and `json.dump` (without `sort_keys`) emits keys in that order. -/
inductive JVal : Type where
  | null
  | boolean (b : Bool)
  | num (n : Int)
  | str (s : String)
  | arr (xs : List JVal)
  | obj (kvs : List (String × JVal))

/-- Lower-case hexadecimal digit, as used by `json.encoder` in the
`\uXXXX` escape. -/
def hexDigit (n : Nat) : Char :=
  if n < 10 then Char.ofNat (48 + n) else Char.ofNat (87 + n)

/-- Escaping of one character by `json.encoder.py_encode_basestring`
(the `ensure_ascii=False` variant used by the tool): backslash, double
quote and the control characters below `0x20` are escaped, everything
else, arbitrary Unicode included, is emitted verbatim. -/
def pyEscapeChar (c : Char) : String :=
  if c = '\\' then "\\\\"
  else if c = '\"' then "\\\""
  else if c = Char.ofNat 8 then "\\b"
  else if c = Char.ofNat 12 then "\\f"
  else if c = '\n' then "\\n"
  else if c = Char.ofNat 13 then "\\r"
  else if c = '\t' then "\\t"
  else if c.toNat < 32 then
    "\\u00" ++ String.mk [hexDigit (c.toNat / 16), hexDigit (c.toNat % 16)]
  else String.mk [c]

/-- Python `json.encoder.py_encode_basestring`: quoted, escaped string. -/
def pyEncodeString (s : String) : String :=
  "\"" ++ String.join (s.data.map pyEscapeChar) ++ "\""

/-- The `newline_indent` of `json.encoder._make_iterencode` for
`indent=4`: a newline followed by `4 * level` spaces. -/
def pyIndent (lvl : Nat) : String :=
  "\n" ++ String.mk (List.replicate (4 * lvl) ' ')

mutual

/-- Serialization of one JSON value by `json.dump(fixture, f,
ensure_ascii=False, indent=4, cls=JSONEncoder)`, at nesting level `lvl`;
follows `json.encoder._make_iterencode` with `item_separator=","` and
`key_separator=": "`. -/
def pyDumpVal (lvl : Nat) : JVal → String
  | .null => "null"
  | .boolean b => if b then "true" else "false"
  | .num n => toString n
  | .str s => pyEncodeString s
  | .arr [] => "[]"
  | .arr (x :: xs) =>
      "[" ++ pyIndent (lvl + 1) ++ pyDumpArr (lvl + 1) (x :: xs) ++ pyIndent lvl ++ "]"
  | .obj [] => "\x7b\x7d"
  | .obj (kv :: kvs) =>
      "\x7b" ++ pyIndent (lvl + 1) ++ pyDumpObj (lvl + 1) (kv :: kvs) ++ pyIndent lvl ++ "\x7d"

/-- Array items joined by `"," ++ pyIndent lvl`. -/
def pyDumpArr (lvl : Nat) : List JVal → String
  | [] => ""
  | [v] => pyDumpVal lvl v
  | v :: w :: rest => pyDumpVal lvl v ++ "," ++ pyIndent lvl ++ pyDumpArr lvl (w :: rest)

/-- Object members `key: value` joined by `"," ++ pyIndent lvl`, keys in
list (insertion) order. -/
def pyDumpObj (lvl : Nat) : List (String × JVal) → String
  | [] => ""
  | [(k, v)] => pyEncodeString k ++ ": " ++ pyDumpVal lvl v
  | (k, v) :: kv :: rest =>
      pyEncodeString k ++ ": " ++ pyDumpVal lvl v ++ "," ++ pyIndent lvl ++ pyDumpObj lvl (kv :: rest)

end

/-- Top-level serialization: `json.dump` starts at indent level `0`. -/
def json_dumps (v : JVal) : String :=
  pyDumpVal 0 v

/-- Abstract view of filesystem metadata used by `skip_filling`:
`mtime` models `os.path.getmtime` (total here; a lookup error on a
missing file is out of scope) and `pathExists` models `os.path.exists`. -/
structure MtimeFS where
  mtime : List String → Int
  pathExists : List String → Bool

/-- Model of `skip_filling(path, pkg_path, module_path)`:
`last_modified_time` is the mtime of
`os.path.join(pkg_path, *module_path) + ".py"`, where
`module_path = [package_name, module_name]` (so `mpPkg` is the package
name as segments and `mpMod` the module name); `last_filled_time` is the
mtime of `path` when it exists and `0` otherwise; skip when
`last_modified_time <= last_filled_time`. -/
def skip_filling (fs : MtimeFS) (path pkg_path : List String)
    (mpPkg : List String) (mpMod : String) : Bool :=
  let last_modified_time := fs.mtime (pkg_path ++ mpPkg ++ [mpMod ++ ".py"])
  let last_filled_time := if fs.pathExists path then fs.mtime path else 0
  decide (last_modified_time ≤ last_filled_time)

/-- A value in a loaded module dictionary: `callable(obj)` and the
optional `__filler_metadata__["name"]` tag, plus the execution behaviour
`obj(t8n, b11r, "NoProof")` of the callable (`.ok` result or `.error`
for a raised exception). -/
structure PyObject where
  isCallable : Bool
  fillerName : Option String
  run : Except String JVal

/-- A Python module file: its stem name and the values of the loaded
module dictionary, in definition order. -/
structure PyModule where
  name : String
  objects : List PyObject

/-- A directory of the filler hierarchy: whether it contains
`__init__.py`, its module files (excluding `__init__`), and its named
sub-directories. -/
inductive Dir : Type where
  | mk (hasInit : Bool) (mods : List PyModule) (subs : List (String × Dir))

/-- Whether the directory contains `__init__.py`. -/
def Dir.initFlag : Dir → Bool
  | .mk h _ _ => h

/-- Module files of the directory. -/
def Dir.modules : Dir → List PyModule
  | .mk _ m _ => m

/-- Sub-directories of the directory. -/
def Dir.subdirs : Dir → List (String × Dir)
  | .mk _ _ s => s

/-- Descend along a segment path from a directory. -/
def Dir.lookup : List String → Dir → Option Dir
  | [], d => some d
  | n :: rest, .mk _ _ subs =>
    match subs.find? (fun p => p.1 == n) with
    | some p => Dir.lookup rest p.2
    | none => none

/-- The `ALWAYS_EXCLUDE = ("ez_setup", "*__pycache__")` filter of
`setuptools.PackageFinder`, on the dotted package name ( `*` may span
dots, so the second pattern means the name ends with `__pycache__`,
which lies inside the last segment). -/
def alwaysExcluded (pkg : List String) : Bool :=
  (pkg == ["ez_setup"]) ||
    (match pkg.getLast? with
     | some s => "__pycache__".data.isSuffixOf s.data
     | none => false)

/-- The `include` filter of `find_packages`: `find_modules` passes
`include_pkg` when given (matched as literal dotted names) and the
match-everything default `("*",)` otherwise. -/
def pkgIncluded (inc : Option (List (List String))) (pkg : List String) : Bool :=
  match inc with
  | none => true
  | some pats => pats.contains pkg

/-- A directory entry that `find_packages` and `iter_modules` treat as a
package and keep walking into: name without a dot and `__init__.py`
present. -/
def walkable (n : String) (d : Dir) : Bool :=
  !hasDot n && d.initFlag

mutual

/-- Model of `setuptools.find_packages`: `os.walk` from the root; each
visited directory first yields those of its package sub-directories that
pass the include filter (and are not always-excluded), then the walk
descends into every package sub-directory, included or not.  `pfx` is
the dotted-name-as-segments of the visited directory. -/
def fpWalk (inc : Option (List (List String))) (pfx : List String) : Dir → List (List String)
  | .mk _ _ subs =>
    (subs.filterMap fun p =>
      if walkable p.1 p.2 && pkgIncluded inc (pfx ++ [p.1]) && !alwaysExcluded (pfx ++ [p.1])
      then some (pfx ++ [p.1]) else none)
    ++ fpWalkSubs inc pfx subs

/-- Recursion of `fpWalk` over the sub-directory list. -/
def fpWalkSubs (inc : Option (List (List String))) (pfx : List String) :
    List (String × Dir) → List (List String)
  | [] => []
  | (n, d) :: rest =>
    (if walkable n d then fpWalk inc (pfx ++ [n]) d else []) ++ fpWalkSubs inc pfx rest

end

/-- `find_packages(root, include=...)`: all package directories below the
root, parents before children. -/
def find_packages (root : Dir) (inc : Option (List (List String))) : List (List String) :=
  fpWalk inc [] root

mutual

/-- Model of `recursive_iter_modules(root, package)` started at the
directory `d` reached along `pkg`: for each entry of
`iter_modules([os.path.join(root, package)])`, recurse into package
sub-directories and yield `(info.name, package_path)` for modules, where
`package_path` is the dotted name (as segments) of the directory that
directly holds the module. -/
def recursive_iter_modules (pkg : List String) : Dir → List (String × List String)
  | .mk _ mods subs =>
    (mods.filterMap fun m => if hasDot m.name then none else some (m.name, pkg))
    ++ rimSubs pkg subs

/-- Recursion of `recursive_iter_modules` over the sub-directory list. -/
def rimSubs (pkg : List String) : List (String × Dir) → List (String × List String)
  | [] => []
  | (n, d) :: rest =>
    (if walkable n d then recursive_iter_modules (pkg ++ [n]) d else []) ++ rimSubs pkg rest

end

/-- One yield of `find_modules`: the `find_packages` package name the
walk started from (`package`, slash form as segments), the module name
(`info.name`), and the package directory that actually holds the module
(`deepPkg`; together with `modName` it determines the
`module_full_name` passed to `find_module`, hence the loader). -/
structure Occ where
  topPkg : List String
  modName : String
  deepPkg : List String
deriving DecidableEq, Repr

/-- The `module_full_name = package_path + "." + info.name` dedup key of
`find_modules`, as segments. -/
def moduleFullName (o : Occ) : List String :=
  o.deepPkg ++ [o.modName]

/-- The flattened sequence of module occurrences the `find_modules`
loops run over: for every `find_packages` package in order, the
occurrences produced by `recursive_iter_modules` for it. -/
def allOccs (root : Dir) (include_pkg : Option (List (List String))) : List Occ :=
  (find_packages root include_pkg).flatMap fun pkg =>
    match Dir.lookup pkg root with
    | some d => (recursive_iter_modules pkg d).map fun im => ⟨pkg, im.1, im.2⟩
    | none => []

/-- The body of `find_modules`: the `modules` seen-set (threaded as a
list) skips any occurrence whose `module_full_name` was met before; a
first occurrence is yielded when the `include_modules` guard passes, and
is added to the seen-set whether or not it was yielded. -/
def findModulesLoop (include_modules : Option String) :
    List Occ → List (List String) → List Occ
  | [], _ => []
  | o :: rest, seen =>
    if moduleFullName o ∈ seen then findModulesLoop include_modules rest seen
    else
      (if optSubstrPass include_modules o.modName then [o] else [])
      ++ findModulesLoop include_modules rest (moduleFullName o :: seen)

/-- Model of `find_modules(root, include_pkg, include_modules)`. -/
def find_modules (root : Dir) (include_pkg : Option (List (List String)))
    (include_modules : Option String) : List Occ :=
  findModulesLoop include_modules (allOccs root include_pkg) []

/-- The recognized run options of the tool (paths as segment lists). -/
structure Options where
  filler_path : List String
  output : List String
  test_categories : Option (List (List String))
  test_module : Option String
  test_case : Option String
  no_output_structure : Bool
  no_skip : Bool

/-- A collected filler as built by the discovery loop of `Filler.fill`:
the metadata name, the stamped
`__filler_metadata__["module_path"] = [package_name, module_name]`
(`pkgName` is `package_name` as segments, `modName` is `module_name`),
and the execution behaviour. -/
structure FillerRec where
  name : String
  pkgName : List String
  modName : String
  run : Except String JVal

/-- Loading a module by the loader for `module_full_name`
(`module_loader.load_module()` followed by `module.__dict__.values()`). -/
def lookupModule (root : Dir) (deepPkg : List String) (modName : String) : List PyObject :=
  match Dir.lookup deepPkg root with
  | some d =>
    match d.modules.find? (fun m => m.name == modName) with
    | some m => m.objects
    | none => []
  | none => []

/-- The discovery loop of `Filler.fill`: for every `find_modules` yield,
load the module and keep each callable member carrying
`__filler_metadata__` whose name passes the `--test-case` guard,
stamping `module_path = [package_name, module_name]` onto it. -/
def collectFillers (root : Dir) (opts : Options) : List FillerRec :=
  (find_modules root opts.test_categories opts.test_module).flatMap fun o =>
    (lookupModule root o.deepPkg o.modName).filterMap fun obj =>
      if obj.isCallable then
        match obj.fillerName with
        | some n =>
          if optSubstrPass opts.test_case n then some ⟨n, o.topPkg, o.modName, obj.run⟩
          else none
        | none => none
      else none

/-- The output path of `Filler.fill`:
`output_dir = os.path.join(options.output, *module_path)` unless
`--no-output-structure` strips the structure, then
`path = os.path.join(output_dir, f"{name}.json")`. -/
def outputPathOf (opts : Options) (f : FillerRec) : List String :=
  let output_dir := opts.output ++ (if opts.no_output_structure then [] else f.pkgName ++ [f.modName])
  output_dir ++ [f.name ++ ".json"]

/-- The fully-qualified logical address
`full_name = ".".join(module_path + [name])`, kept structured as
`package_name` segments followed by module name and unit name. -/
def fullAddress (f : FillerRec) : List String :=
  f.pkgName ++ [f.modName, f.name]

/-- The submission loop of `Filler.fill`: a filler is skipped exactly
when `skip_filling(path, pkg_path, module_path) and not options.no_skip`
holds; otherwise it is submitted to the executor together with its
output path. -/
def submittedFillers (opts : Options) (fs : MtimeFS) (fillers : List FillerRec) :
    List (FillerRec × List String) :=
  fillers.filterMap fun filler =>
    let path := outputPathOf opts filler
    if skip_filling fs path opts.filler_path filler.pkgName filler.modName && !opts.no_skip
    then none
    else some (filler, path)

/-- Contents of the output directory tree: path to file contents. -/
def FilesState : Type :=
  List String → Option String

/-- One result write of `Filler.fill`:
`open(path, "w", encoding="utf-8")` then `json.dump(fixture, f,
ensure_ascii=False, indent=4, cls=JSONEncoder)` — the file at `path` is
created or truncated and receives the serialization of the fixture. -/
def persistResult (files : FilesState) (path : List String) (v : JVal) : FilesState :=
  fun p => if p = path then some (json_dumps v) else files p

/-- An entry of the `futures` list of `Filler.fill`: the execution
outcome of the submitted callable, its output path and its
fully-qualified `full_name`. -/
structure SubmittedUnit where
  run : Except String JVal
  path : List String
  fullName : List String

/-- Observable outcome of the retrieval loop of `Filler.fill`:
final file contents, the `"filling - {full_name}"` debug log entries,
the file writes in the order performed, the units whose
`future.result()` was called in order, and the exception (if any) that
escaped the loop. -/
structure RunResult where
  files : FilesState
  debugLog : List (List String)
  writes : List (List String × String)
  retrieved : List (List String)
  raised : Option String

/-- The retrieval loop of `Filler.fill`:
`for future, path, full_name in futures:` retrieves each result in
submission order; `future.result()` re-raises the exception of a failed
execution, which terminates the loop at once (the remaining futures are
neither retrieved nor written, and nothing is attached to the
exception); a successful result is logged and written to its path. -/
def writeResults (files0 : FilesState) : List SubmittedUnit → RunResult
  | [] => ⟨files0, [], [], [], none⟩
  | u :: rest =>
    match u.run with
    | .error e => ⟨files0, [], [], [u.fullName], some e⟩
    | .ok v =>
      let r := writeResults (persistResult files0 u.path v) rest
      ⟨r.files, u.fullName :: r.debugLog, (u.path, json_dumps v) :: r.writes,
        u.fullName :: r.retrieved, r.raised⟩

/-- Packaging of a submitted filler as a `futures` entry. -/
def toSubmitted (p : FillerRec × List String) : SubmittedUnit :=
  ⟨p.1.run, p.2, fullAddress p.1⟩

/-- End-to-end model of `Filler.fill`: discover, decide skipping, submit,
then retrieve and write. -/
def fill (root : Dir) (opts : Options) (fs : MtimeFS) (files0 : FilesState) : RunResult :=
  writeResults files0 ((submittedFillers opts fs (collectFillers root opts)).map toSubmitted)

/-- Whether the execution of a submitted unit succeeded. -/
def isOkRun (u : SubmittedUnit) : Bool :=
  match u.run with
  | .ok _ => true
  | .error _ => false

/-- The fixture of a successful execution (`.null` dummy otherwise). -/
def runVal (u : SubmittedUnit) : JVal :=
  match u.run with
  | .ok v => v
  | .error _ => .null

/-- The raised error of a failed execution. -/
def errOf (u : SubmittedUnit) : Option String :=
  match u.run with
  | .ok _ => none
  | .error e => some e

/-- Sequentially persist the fixtures of a list of units. -/
def applyWrites (files : FilesState) (l : List SubmittedUnit) : FilesState :=
  l.foldl (fun fs u => persistResult fs u.path (runVal u)) files

/-- The error of the first failed unit of the list, if any. -/
def firstErrorOf (l : List SubmittedUnit) : Option String :=
  match l.dropWhile isOkRun with
  | [] => none
  | u :: _ => errOf u

/-- Concrete scenario module: one module `arith` defining tagged units
`add` and `sub` plus one untagged value. -/
def arithModule : PyModule :=
  ⟨"arith", [⟨true, some "add", .ok (.num 1)⟩, ⟨true, some "sub", .ok (.num 2)⟩,
    ⟨false, none, .ok .null⟩]⟩

/-- Concrete scenario hierarchy: root containing package `vm` with
sub-package `vm/vm_tests` holding the module `arith`. -/
def root5 : Dir :=
  .mk false [] [("vm", .mk true [] [("vm_tests", .mk true [arithModule] [])])]

/-- Options of the concrete scenario: output root `out`, unit name
filter `ad`, hierarchy mirrored in the output. -/
def opts5 : Options :=
  ⟨["fillers"], ["out"], none, none, some "ad", false, false⟩

/-- The concrete scenario with flattened output. -/
def opts5flat : Options :=
  { opts5 with no_output_structure := true }

/-- The concrete scenario without a unit name filter. -/
def opts6 : Options :=
  { opts5 with test_case := none }

/-- The filler record discovery produces for unit `add` of the
scenario. -/
def addRec : FillerRec :=
  ⟨"add", ["vm"], "arith", .ok (.num 1)⟩

/-- The filler record discovery produces for unit `sub` of the
scenario. -/
def subRec : FillerRec :=
  ⟨"sub", ["vm"], "arith", .ok (.num 2)⟩

/-- A module occurrence of the scenario reached through the top-level
package expansion `vm`. -/
def occVm : Occ :=
  ⟨["vm"], "arith", ["vm", "vm_tests"]⟩

/-- The same module of the scenario reached again through the
sub-package expansion `vm.vm_tests`. -/
def occVmTests : Occ :=
  ⟨["vm", "vm_tests"], "arith", ["vm", "vm_tests"]⟩

/-- A submitted unit whose execution raises. -/
def uFail : SubmittedUnit :=
  ⟨.error "boom", ["out", "vm", "arith", "add.json"], ["vm", "arith", "add"]⟩

/-- A submitted unit whose execution succeeds. -/
def uOk : SubmittedUnit :=
  ⟨.ok (.num 7), ["out", "vm", "arith", "sub.json"], ["vm", "arith", "sub"]⟩

/-- An empty output directory. -/
def emptyFiles : FilesState :=
  fun _ => none

/-- Metadata state for the staleness scenarios: the source module is
older than every other path, and only the output `out/x.json` exists. -/
def fsC2 : MtimeFS :=
  ⟨fun p => if p = ["fillers", "vm", "arith.py"] then 5 else 9,
   fun p => p == ["out", "x.json"]⟩

/-- Metadata state with every timestamp `0` and no file existing. -/
def fsC3 : MtimeFS :=
  ⟨fun _ => 0, fun _ => false⟩

/-- Metadata state with every timestamp `5` and no file existing. -/
def fsC3b : MtimeFS :=
  ⟨fun _ => 5, fun _ => false⟩

/-- The concrete scenario with the force flag `--no-skip` set. -/
def optsC4 : Options :=
  { opts5 with no_skip := true }

/-- Demonstration fixture for the serialization format: insertion key
order `b, a, c, d`, a nested object, a non-ASCII character, an escaped
control character, an empty array and a two-element array. -/
def demoFixture : JVal :=
  .obj [("b", .num 1), ("a", .obj [("k", .str "é\n")]), ("c", .arr []),
    ("d", .arr [.num 2, .str "x"])]

theorem take_append_len {α : Type} (a b : List α) (n : Nat) :
    (a ++ b).take (a.length + n) = a ++ b.take n := by
  induction a with
  | nil => simp
  | cons x xs ih => simp [List.take_succ_cons, ih, Nat.succ_add]

theorem takeWhile_map_take {α β : Type} (p : α → Bool) (f : α → β) (l : List α) :
    (l.takeWhile p).map f = (l.map f).take (l.takeWhile p).length := by
  induction l with
  | nil => rfl
  | cons x xs ih =>
    cases hx : p x with
    | true => simp [List.takeWhile_cons, hx, ih]
    | false => simp [List.takeWhile_cons, hx]

theorem takeWhile_append_all {α : Type} (p : α → Bool) (pre post : List α) (bad : α)
    (hpre : ∀ u ∈ pre, p u = true) (hbad : p bad = false) :
    (pre ++ bad :: post).takeWhile p = pre ∧ (pre ++ bad :: post).dropWhile p = bad :: post := by
  induction pre with
  | nil => simp [List.takeWhile_cons, List.dropWhile_cons, hbad]
  | cons x xs ih =>
    have hx : p x = true := hpre x (List.mem_cons_self x xs)
    have hxs := ih fun u hu => hpre u (List.mem_cons_of_mem x hu)
    simp [List.takeWhile_cons, List.dropWhile_cons, hx, hxs.1, hxs.2]

theorem append_pair_inj {α : Type} {l₁ l₂ : List α} {a b c d : α}
    (h : l₁ ++ [a, b] = l₂ ++ [c, d]) : l₁ = l₂ ∧ a = c ∧ b = d := by
  have hlen : l₁.length = l₂.length := by
    have hl := congrArg List.length h
    simp only [List.length_append, List.length_cons, List.length_nil] at hl
    omega
  obtain ⟨h1, h2⟩ := List.append_inj h hlen
  refine ⟨h1, ?_, ?_⟩
  · injection h2
  · injection h2 with h2a h2b
    injection h2b

theorem string_append_right_cancel {a b c : String} (h : a ++ c = b ++ c) : a = b := by
  apply String.ext
  have hd : a.data ++ c.data = b.data ++ c.data := by
    have h2 := congrArg String.data h
    simpa [String.data_append] using h2
  exact List.append_cancel_right hd

theorem writeResults_eq (files0 : FilesState) (l : List SubmittedUnit) :
    writeResults files0 l =
      ⟨applyWrites files0 (l.takeWhile isOkRun),
       (l.takeWhile isOkRun).map (fun u => u.fullName),
       (l.takeWhile isOkRun).map (fun u => (u.path, json_dumps (runVal u))),
       (l.takeWhile isOkRun).map (fun u => u.fullName)
         ++ ((l.dropWhile isOkRun).take 1).map (fun u => u.fullName),
       firstErrorOf l⟩ := by
  induction l generalizing files0 with
  | nil => rfl
  | cons u rest ih =>
    cases hu : u.run with
    | error e =>
      have hok : isOkRun u = false := by simp [isOkRun, hu]
      simp [writeResults, hu, List.takeWhile_cons, List.dropWhile_cons, hok,
        firstErrorOf, errOf, applyWrites]
    | ok v =>
      have hok : isOkRun u = true := by simp [isOkRun, hu]
      have hv : runVal u = v := by simp [runVal, hu]
      simp [writeResults, hu, List.takeWhile_cons, List.dropWhile_cons, hok,
        firstErrorOf, applyWrites, hv, ih]

theorem modName_eq_of_fullName_eq {o x : Occ} (h : moduleFullName o = moduleFullName x) :
    o.modName = x.modName := by
  have hl := congrArg List.getLast? h
  simpa [moduleFullName, List.getLast?_concat] using hl

theorem findModulesLoop_unseen (inc : Option String) :
    ∀ (occs : List Occ) (seen : List (List String)) (o : Occ),
      o ∈ findModulesLoop inc occs seen → moduleFullName o ∉ seen := by
  intro occs
  induction occs with
  | nil =>
    intro seen o h
    simp [findModulesLoop] at h
  | cons x rest ih =>
    intro seen o h
    rw [findModulesLoop] at h
    by_cases hx : moduleFullName x ∈ seen
    · rw [if_pos hx] at h
      exact ih seen o h
    · rw [if_neg hx] at h
      rcases List.mem_append.mp h with h1 | h2
      · cases hp : optSubstrPass inc x.modName with
        | true =>
          rw [hp] at h1
          simp at h1
          subst h1
          exact hx
        | false =>
          rw [hp] at h1
          simp at h1
      · have h3 := ih _ o h2
        intro hmem
        exact h3 (List.mem_cons_of_mem _ hmem)

theorem findModulesLoop_nodup (inc : Option String) :
    ∀ (occs : List Occ) (seen : List (List String)),
      ((findModulesLoop inc occs seen).map moduleFullName).Nodup := by
  intro occs
  induction occs with
  | nil =>
    intro seen
    simp [findModulesLoop]
  | cons x rest ih =>
    intro seen
    rw [findModulesLoop]
    by_cases hx : moduleFullName x ∈ seen
    · rw [if_pos hx]
      exact ih seen
    · rw [if_neg hx]
      cases hp : optSubstrPass inc x.modName with
      | true =>
        simp only [hp, if_true, List.singleton_append, List.map_cons, List.nodup_cons]
        refine ⟨?_, ih _⟩
        intro hmem
        obtain ⟨o, ho, hfo⟩ := List.mem_map.mp hmem
        exact findModulesLoop_unseen inc rest _ o ho (hfo ▸ List.mem_cons_self _ _)
      | false =>
        simp only [Bool.false_eq_true, if_false, List.nil_append]
        exact ih _

theorem findModulesLoop_first (inc : Option String) :
    ∀ (occs : List Occ) (seen : List (List String)) (o : Occ),
      o ∈ findModulesLoop inc occs seen →
      occs.find? (fun x => moduleFullName x == moduleFullName o) = some o := by
  intro occs
  induction occs with
  | nil =>
    intro seen o h
    simp [findModulesLoop] at h
  | cons x rest ih =>
    intro seen o h
    have hunseen := findModulesLoop_unseen inc (x :: rest) seen o h
    rw [findModulesLoop] at h
    by_cases hx : moduleFullName x ∈ seen
    · rw [if_pos hx] at h
      have hne : (moduleFullName x == moduleFullName o) = false := by
        simp only [beq_eq_false_iff_ne, ne_eq]
        intro hEq
        exact hunseen (hEq ▸ hx)
      rw [List.find?_cons_of_neg _ (by simp [hne])]
      exact ih seen o h
    · rw [if_neg hx] at h
      rcases List.mem_append.mp h with h1 | h2
      · cases hp : optSubstrPass inc x.modName with
        | true =>
          rw [hp] at h1
          simp at h1
          subst h1
          rw [List.find?_cons_of_pos _ (by simp)]
        | false =>
          rw [hp] at h1
          simp at h1
      · have ho := findModulesLoop_unseen inc rest _ o h2
        have hne : (moduleFullName x == moduleFullName o) = false := by
          simp only [beq_eq_false_iff_ne, ne_eq]
          intro hEq
          exact ho (hEq ▸ List.mem_cons_self _ _)
        rw [List.find?_cons_of_neg _ (by simp [hne])]
        exact ih _ o h2

theorem findModulesLoop_pass (inc : Option String) :
    ∀ (occs : List Occ) (seen : List (List String)) (o : Occ),
      o ∈ findModulesLoop inc occs seen → optSubstrPass inc o.modName = true := by
  intro occs
  induction occs with
  | nil =>
    intro seen o h
    simp [findModulesLoop] at h
  | cons x rest ih =>
    intro seen o h
    rw [findModulesLoop] at h
    by_cases hx : moduleFullName x ∈ seen
    · rw [if_pos hx] at h
      exact ih seen o h
    · rw [if_neg hx] at h
      rcases List.mem_append.mp h with h1 | h2
      · cases hp : optSubstrPass inc x.modName with
        | true =>
          rw [hp] at h1
          simp at h1
          subst h1
          exact hp
        | false =>
          rw [hp] at h1
          simp at h1
      · exact ih _ o h2

theorem findModulesLoop_complete (inc : Option String) :
    ∀ (occs : List Occ) (seen : List (List String)) (o : Occ),
      o ∈ occs → optSubstrPass inc o.modName = true → moduleFullName o ∉ seen →
      moduleFullName o ∈ (findModulesLoop inc occs seen).map moduleFullName := by
  intro occs
  induction occs with
  | nil =>
    intro seen o h
    simp at h
  | cons x rest ih =>
    intro seen o hmem hpass hseen
    rw [findModulesLoop]
    rcases List.mem_cons.mp hmem with rfl | hrest
    · rw [if_neg hseen, hpass]
      simp
    · by_cases hx : moduleFullName x ∈ seen
      · rw [if_pos hx]
        exact ih seen o hrest hpass hseen
      · rw [if_neg hx]
        by_cases hfx : moduleFullName o = moduleFullName x
        · have hmn : o.modName = x.modName := modName_eq_of_fullName_eq hfx
          have hpx : optSubstrPass inc x.modName = true := by
            rw [← hmn]
            exact hpass
          rw [hpx]
          simp [hfx]
        · have hrec := ih (moduleFullName x :: seen) o hrest hpass (by
            intro hmem2
            rcases List.mem_cons.mp hmem2 with h1 | h1
            · exact hfx h1
            · exact hseen h1)
          cases hp : optSubstrPass inc x.modName with
          | true =>
            simp only [if_true, List.singleton_append, List.map_cons]
            exact List.mem_cons_of_mem _ hrec
          | false =>
            simp only [Bool.false_eq_true, if_false, List.nil_append]
            exact hrec

/-- C2: for every unit whose output file exists, `skip_filling` returns
`true` exactly when the source module file's last-modified timestamp is
at most the output file's last-modified timestamp; in particular a
source strictly newer than the output is never skipped, and a source
older or equally old is skipped. -/
theorem claim_C2_staleness_iff (fs : MtimeFS) (path pkg_path mpPkg : List String)
    (mpMod : String) (h : fs.pathExists path = true) :
    (skip_filling fs path pkg_path mpPkg mpMod = true ↔
      fs.mtime (pkg_path ++ mpPkg ++ [mpMod ++ ".py"]) ≤ fs.mtime path)
    ∧ (fs.mtime path < fs.mtime (pkg_path ++ mpPkg ++ [mpMod ++ ".py"]) →
      skip_filling fs path pkg_path mpPkg mpMod = false) := by
  constructor
  · simp [skip_filling, h]
  · intro hlt
    simp only [skip_filling, h, if_true, decide_eq_false_iff_not, not_le]
    exact hlt

/-- Witness for C2 at a concrete metadata state whose output file
exists. -/
theorem claim_C2_witness :
    fsC2.pathExists ["out", "x.json"] = true
    ∧ (skip_filling fsC2 ["out", "x.json"] ["fillers"] ["vm"] "arith" = true ↔
        fsC2.mtime (["fillers"] ++ ["vm"] ++ ["arith" ++ ".py"]) ≤ fsC2.mtime ["out", "x.json"]) :=
  ⟨by decide,
   (claim_C2_staleness_iff fsC2 ["out", "x.json"] ["fillers"] ["vm"] "arith" (by decide)).1⟩

/-- C3 counterexample: with no output file and a source timestamp of
`0` (a source stamped exactly at the Unix epoch), `skip_filling`
returns `true` — the unit is skipped although no output exists, because
the code substitutes timestamp `0` for the missing output and compares
with `<=`. -/
theorem claim_C3_counterexample :
    fsC3.pathExists ["out", "vm", "arith", "add.json"] = false
    ∧ skip_filling fsC3 ["out", "vm", "arith", "add.json"] ["fillers"] ["vm"] "arith" = true :=
  ⟨rfl, by decide⟩

/-- C3 (amended): if no output file exists at the resolved path and the
source timestamp is strictly later than the Unix epoch — the timestamp
the code substitutes for a missing output — the unit is never
skipped. -/
theorem claim_C3_missing_output_not_skipped (fs : MtimeFS)
    (path pkg_path mpPkg : List String) (mpMod : String)
    (hne : fs.pathExists path = false)
    (hpos : 0 < fs.mtime (pkg_path ++ mpPkg ++ [mpMod ++ ".py"])) :
    skip_filling fs path pkg_path mpPkg mpMod = false := by
  simp only [skip_filling, hne, Bool.false_eq_true, if_false, decide_eq_false_iff_not, not_le]
  exact hpos

/-- Witness for C3 (amended) at a concrete metadata state. -/
theorem claim_C3_witness :
    fsC3b.pathExists ["out", "a.json"] = false
    ∧ (0 : Int) < fsC3b.mtime (["fillers"] ++ ["vm"] ++ ["arith" ++ ".py"])
    ∧ skip_filling fsC3b ["out", "a.json"] ["fillers"] ["vm"] "arith" = false :=
  ⟨rfl, by decide,
   claim_C3_missing_output_not_skipped fsC3b ["out", "a.json"] ["fillers"] ["vm"] "arith"
     rfl (by decide)⟩

/-- C4: with the force flag `--no-skip` set, the submission loop
submits every collected filler together with its resolved output path;
the staleness decision is ignored for every unit, whatever the
timestamps are. -/
theorem claim_C4_no_skip_submits_all (opts : Options) (fs : MtimeFS)
    (fillers : List FillerRec) (h : opts.no_skip = true) :
    submittedFillers opts fs fillers = fillers.map fun f => (f, outputPathOf opts f) := by
  induction fillers with
  | nil => rfl
  | cons f rest ih =>
    simp only [submittedFillers, List.filterMap_cons, h, Bool.not_true, Bool.and_false,
      Bool.false_eq_true, if_false, List.map_cons] at *
    rw [ih]

/-- Witness for C4: with `--no-skip`, both scenario fillers are
submitted even though every source timestamp equals `0`. -/
theorem claim_C4_witness :
    submittedFillers optsC4 fsC3 [addRec, subRec] =
      [(addRec, outputPathOf optsC4 addRec), (subRec, outputPathOf optsC4 subRec)] :=
  claim_C4_no_skip_submits_all optsC4 fsC3 [addRec, subRec] rfl

/-- C1 counterexample: two units are dispatched, the first raises and
the second succeeds; the failure is surfaced when the first result is
retrieved, but the succeeded second unit is never persisted — no write
is performed at all and its path stays empty — refuting that every
other dispatched unit has its result persisted to its resolved path. -/
theorem claim_C1_counterexample :
    uOk.run = Except.ok (JVal.num 7)
    ∧ (writeResults emptyFiles [uFail, uOk]).raised = some "boom"
    ∧ (writeResults emptyFiles [uFail, uOk]).files uOk.path = none
    ∧ (writeResults emptyFiles [uFail, uOk]).writes = [] :=
  ⟨rfl, rfl, rfl, rfl⟩

/-- C1 (amended): when a dispatched unit raises, the retrieval loop of
`Filler.fill` surfaces the raw error of the first failing unit in
submission order (without attaching its logical address) and stops at
it: the units before it are retrieved and their results persisted to
their resolved paths, the failing unit itself is the last one
retrieved, files at all other paths keep their previous contents, and
units after the failure are not persisted even when their execution
succeeded. -/
theorem claim_C1_failure_stops_write_back (files0 : FilesState)
    (pre post : List SubmittedUnit) (bad : SubmittedUnit) (e : String)
    (hpre : ∀ u ∈ pre, isOkRun u = true) (hbad : bad.run = Except.error e) :
    (writeResults files0 (pre ++ bad :: post)).raised = some e
    ∧ (writeResults files0 (pre ++ bad :: post)).files = applyWrites files0 pre
    ∧ (writeResults files0 (pre ++ bad :: post)).writes =
        pre.map (fun u => (u.path, json_dumps (runVal u)))
    ∧ (writeResults files0 (pre ++ bad :: post)).retrieved =
        pre.map (fun u => u.fullName) ++ [bad.fullName] := by
  have hb : isOkRun bad = false := by simp [isOkRun, hbad]
  obtain ⟨ht, hd⟩ := takeWhile_append_all isOkRun pre post bad hpre hb
  rw [writeResults_eq]
  refine ⟨?_, ?_, ?_, ?_⟩ <;> simp [ht, hd, firstErrorOf, errOf, hbad]

/-- Witness for C1 (amended): a successful unit followed by a failing
one — the success is persisted, the failure is surfaced last. -/
theorem claim_C1_witness :
    (writeResults emptyFiles ([uOk] ++ uFail :: [])).raised = some "boom"
    ∧ (writeResults emptyFiles ([uOk] ++ uFail :: [])).files = applyWrites emptyFiles [uOk]
    ∧ (writeResults emptyFiles ([uOk] ++ uFail :: [])).writes =
        [uOk].map (fun u => (u.path, json_dumps (runVal u)))
    ∧ (writeResults emptyFiles ([uOk] ++ uFail :: [])).retrieved =
        [uOk].map (fun u => u.fullName) ++ [uFail.fullName] :=
  claim_C1_failure_stops_write_back emptyFiles [uOk] [] uFail "boom" (by decide) rfl

/-- C8: the Result Writer writes the serialization of the fixture to
the given resolved path and overwrites whatever the file held before
(the first conjunct holds for every prior directory state, existing
file or not); serialization is a deterministic function that indents
each nesting level by exactly four spaces, passes non-ASCII characters
through verbatim (the output is written as UTF-8 text), and emits
object keys in their stored insertion order — stable across runs,
though not sorted — as the concrete serialization of `demoFixture` in
the second conjunct exhibits. -/
theorem claim_C8_result_writer :
    (∀ (files : FilesState) (path : List String) (v : JVal),
      persistResult files path v path = some (json_dumps v))
    ∧ json_dumps demoFixture =
        "\x7b\n    \"b\": 1,\n    \"a\": \x7b\n        \"k\": \"é\\n\"\n    \x7d,\n    \"c\": [],\n    \"d\": [\n        2,\n        \"x\"\n    ]\n\x7d" :=
  ⟨fun files path v => by simp [persistResult], by decide⟩

/-- C9: results are retrieved and output files written strictly in
submission order by the sequential retrieval loop: the sequence of
written paths is exactly the initial segment of the submitted paths, in
submission order, covering the successful executions up to the first
failure, and the sequence of retrievals is likewise an initial segment
of the submission order (including the first failing unit, if any);
which execution finished first never enters the loop. -/
theorem claim_C9_submission_order (files0 : FilesState) (l : List SubmittedUnit) :
    (writeResults files0 l).writes.map Prod.fst =
      (l.map fun u => u.path).take (l.takeWhile isOkRun).length
    ∧ (writeResults files0 l).retrieved =
      (l.map fun u => u.fullName).take
        ((l.takeWhile isOkRun).length + ((l.dropWhile isOkRun).take 1).length) := by
  rw [writeResults_eq]
  constructor
  · show ((l.takeWhile isOkRun).map fun u => (u.path, json_dumps (runVal u))).map Prod.fst = _
    rw [List.map_map]
    exact takeWhile_map_take isOkRun (fun u => u.path) l
  · show (l.takeWhile isOkRun).map (fun u => u.fullName)
      ++ ((l.dropWhile isOkRun).take 1).map (fun u => u.fullName) = _
    rw [show l.map (fun u => u.fullName)
          = (l.takeWhile isOkRun).map (fun u => u.fullName)
            ++ (l.dropWhile isOkRun).map (fun u => u.fullName) by
        rw [← List.map_append, List.takeWhile_append_dropWhile],
      show (l.takeWhile isOkRun).length
        = ((l.takeWhile isOkRun).map (fun u => u.fullName)).length by rw [List.length_map],
      take_append_len]
    congr 1
    cases l.dropWhile isOkRun with
    | nil => rfl
    | cons y ys => simp

/-- C5 counterexample: in the concrete scenario — a root hierarchy
containing package `vm/vm_tests` whose one module `arith` defines the
tagged units `add` and `sub`, name filter `ad`, output root `out`,
hierarchy mirrored — the only discovered unit is `add`, but its
resolved output path is `out/vm/arith/add.json`, not
`out/vm/vm_tests/add.json` as claimed: discovery stamps the top-level
expansion package `vm` (dropping the sub-package segment `vm_tests`)
and the defining module name `arith` becomes a path segment. -/
theorem claim_C5_counterexample :
    (collectFillers root5 opts5).map (fun f => (f.name, outputPathOf opts5 f)) =
      [("add", ["out", "vm", "arith", "add.json"])]
    ∧ (["out", "vm", "arith", "add.json"] : List String) ≠ ["out", "vm", "vm_tests", "add.json"] := by
  refine ⟨by decide, by decide⟩

/-- C5 (amended): in the concrete scenario, filtering by unit name `ad`
discovers only `add`; with the hierarchy mirrored, the resolved output
path for `add` is `out/vm/arith/add.json` — the output root, the
stamped top-level package `vm`, the defining module name `arith`, then
`add.json` — and with flattening it is `out/add.json`. -/
theorem claim_C5_scenario_paths :
    (collectFillers root5 opts5).map (fun f => f.name) = ["add"]
    ∧ (collectFillers root5 opts5).map (outputPathOf opts5) = [["out", "vm", "arith", "add.json"]]
    ∧ (collectFillers root5 opts5flat).map (outputPathOf opts5flat) = [["out", "add.json"]] := by
  refine ⟨by decide, by decide, by decide⟩

/-- C6: with the output hierarchy mirrored (no flattening), two
discovered units that differ in their fully-qualified logical address —
the stamped package name, module name and unit name — always resolve to
distinct output paths. -/
theorem claim_C6_distinct_paths (root : Dir) (opts : Options) (f1 f2 : FillerRec)
    (_h1 : f1 ∈ collectFillers root opts) (_h2 : f2 ∈ collectFillers root opts)
    (hflat : opts.no_output_structure = false)
    (hne : (f1.pkgName, f1.modName, f1.name) ≠ (f2.pkgName, f2.modName, f2.name)) :
    outputPathOf opts f1 ≠ outputPathOf opts f2 := by
  intro heq
  apply hne
  have hexp : ∀ f : FillerRec, outputPathOf opts f =
      opts.output ++ (f.pkgName ++ [f.modName, f.name ++ ".json"]) := by
    intro f
    simp [outputPathOf, hflat]
  rw [hexp, hexp] at heq
  obtain ⟨hp, hm, hj⟩ := append_pair_inj (List.append_cancel_left heq)
  have hn : f1.name = f2.name := string_append_right_cancel hj
  rw [hp, hm, hn]

/-- Witness for C6: the two scenario units `add` and `sub` resolve to
distinct paths. -/
theorem claim_C6_witness :
    outputPathOf opts6 addRec ≠ outputPathOf opts6 subRec := by
  have hc : collectFillers root5 opts6 = [addRec, subRec] := rfl
  exact claim_C6_distinct_paths root5 opts6 addRec subRec
    (by rw [hc]; exact List.mem_cons_self _ _)
    (by rw [hc]; exact List.mem_cons_of_mem _ (List.mem_cons_self _ _))
    rfl
    (by decide)

/-- C7: `find_modules` never yields the same module twice: the dedup
keys (`module_full_name`, the deep package path plus the module name)
of its yields are pairwise distinct; every yield is the first
occurrence of its module in the traversal over all package-path
expansions; and every traversed module whose name passes the module
guard is represented among the yields — first occurrence wins. -/
theorem claim_C7_dedup_first_occurrence (root : Dir)
    (cats : Option (List (List String))) (inc : Option String) :
    ((find_modules root cats inc).map moduleFullName).Nodup
    ∧ (∀ o ∈ find_modules root cats inc,
        (allOccs root cats).find? (fun x => moduleFullName x == moduleFullName o) = some o)
    ∧ (∀ o ∈ allOccs root cats, optSubstrPass inc o.modName = true →
        moduleFullName o ∈ (find_modules root cats inc).map moduleFullName) := by
  refine ⟨findModulesLoop_nodup inc _ _, ?_, ?_⟩
  · intro o ho
    exact findModulesLoop_first inc (allOccs root cats) [] o ho
  · intro o ho hpass
    exact findModulesLoop_complete inc (allOccs root cats) [] o ho hpass (by simp)

/-- Witness for C7 on the concrete scenario, where the module
`vm.vm_tests.arith` is traversed twice — once through the package
expansion `vm` and once through `vm.vm_tests`: the yields stay
duplicate-free, the yield is the first occurrence, and the module is
still represented. -/
theorem claim_C7_witness :
    ((find_modules root5 none none).map moduleFullName).Nodup
    ∧ (allOccs root5 none).find?
        (fun x => moduleFullName x == moduleFullName occVm) = some occVm
    ∧ moduleFullName occVmTests ∈ (find_modules root5 none none).map moduleFullName := by
  obtain ⟨hnd, hfirst, hcomp⟩ := claim_C7_dedup_first_occurrence root5 none none
  exact ⟨hnd, hfirst occVm (by decide), hcomp occVmTests (by decide) (by decide)⟩

/-- C10: discovery filters on the module name itself: whenever the
`--test-module` option carries a string, the name of the defining
module of every yield of `find_modules` contains that string as a
substring; when the option is unset, no module is dropped — every
traversed module stays represented among the yields. -/
theorem claim_C10_test_module_filter :
    (∀ (root : Dir) (cats : Option (List (List String))) (s : String) (o : Occ),
      o ∈ find_modules root cats (some s) → s.data <:+: o.modName.data)
    ∧ (∀ (root : Dir) (cats : Option (List (List String))) (o : Occ),
      o ∈ allOccs root cats →
      moduleFullName o ∈ (find_modules root cats none).map moduleFullName) := by
  constructor
  · intro root cats s o ho
    have hp := findModulesLoop_pass (some s) (allOccs root cats) [] o ho
    simp only [optSubstrPass, Bool.or_eq_true] at hp
    rcases hp with hempty | hsub
    · have hs : s = "" := eq_of_beq hempty
      subst hs
      exact ⟨[], o.modName.data, by simp⟩
    · exact of_decide_eq_true hsub
  · intro root cats o ho
    exact findModulesLoop_complete none (allOccs root cats) [] o ho rfl (by simp)

/-- Witness for C10: with module filter `ar`, the scenario module
`arith` is yielded and `ar` is a substring of its name. -/
theorem claim_C10_witness :
    occVm ∈ find_modules root5 none (some "ar")
    ∧ "ar".data <:+: occVm.modName.data :=
  ⟨by decide, claim_C10_test_module_filter.1 root5 none "ar" occVm (by decide)⟩
